import Mathlib

/-!
Verification of the support-bot message workflow (src/main.py).

Modelling conventions:
* Python strings are lists of characters (`Str`).
* Python datetimes and SQL timestamps are integer seconds.
* The per-department PostgreSQL tables are in-memory lists, indexed by a
  two-element `Dept` type; SQL upsert/delete are list operations.
* External collaborators (the Bitrix CRM contact lookup, database
  success/failure of a write) are explicit parameters of the functions
  that call them.
* Character classes of Python's `re` and `str.strip` are modelled over
  their ASCII parts, which is exhaustive for the data the bot handles.
-/

set_option maxHeartbeats 1000000

abbrev Str := List Char

/-- ASCII model of the whitespace class used by Python `str.strip` and regex whitespace. -/
def isWsChar (c : Char) : Bool :=
  c == ' ' || c == '\t' || c == '\n' || c == '\r' || c == '\x0b' || c == '\x0c'

/-- The decimal digits, the character class of regex `[0-9]` and of Python `\d`/`\D` (ASCII part). -/
def isDigitChar (c : Char) : Bool :=
  '0' ≤ c && c ≤ '9'

/-- Python `str.strip()`: drop whitespace from both ends. -/
def pyStrip (s : Str) : Str :=
  ((s.dropWhile isWsChar).reverse.dropWhile isWsChar).reverse

/-- Python `str.lower()`, covering the ASCII and Cyrillic ranges the bot compares. -/
def pyLowerChar (c : Char) : Char :=
  if 'A' ≤ c && c ≤ 'Z' then Char.ofNat (c.toNat + 32)
  else if 'А' ≤ c && c ≤ 'Я' then Char.ofNat (c.toNat + 32)
  else if c == 'Ё' then 'ё'
  else c

def pyLower (s : Str) : Str := s.map pyLowerChar

/-- Python `str.upper()` as used on ASCII category codes. -/
def pyUpper (s : Str) : Str := s.map Char.toUpper

-- ==========================================
-- Generic list lemmas used throughout
-- ==========================================

lemma all_of_dropWhile {p q : Char → Bool} {l : Str} (h : l.all q = true) :
    (l.dropWhile p).all q = true := by
  induction l with
  | nil => simp
  | cons c t ih =>
      simp only [List.all_cons, Bool.and_eq_true] at h
      by_cases hp : p c
      · simpa [List.dropWhile_cons, hp] using ih h.2
      · simp [List.dropWhile_cons, hp, h.1, h.2]

lemma all_of_takeWhile {p q : Char → Bool} {l : Str} (h : l.all q = true) :
    (l.takeWhile p).all q = true := by
  induction l with
  | nil => simp
  | cons c t ih =>
      simp only [List.all_cons, Bool.and_eq_true] at h
      by_cases hp : p c
      · simp [List.takeWhile_cons, hp, h.1, ih h.2]
      · simp [List.takeWhile_cons, hp]

lemma dropWhile_append_of_all {p : Char → Bool} {a b : Str} (h : a.all p = true) :
    (a ++ b).dropWhile p = b.dropWhile p := by
  induction a with
  | nil => simp
  | cons c t ih =>
      simp only [List.all_cons, Bool.and_eq_true] at h
      simp [List.dropWhile_cons, h.1, ih h.2]

lemma takeWhile_append_of_all {p : Char → Bool} {a b : Str} (h : a.all p = true) :
    (a ++ b).takeWhile p = a ++ b.takeWhile p := by
  induction a with
  | nil => simp
  | cons c t ih =>
      simp only [List.all_cons, Bool.and_eq_true] at h
      simp [List.takeWhile_cons, h.1, ih h.2]

lemma dropWhile_cons_of_neg {p : Char → Bool} {c : Char} {t : Str} (h : p c = false) :
    (c :: t).dropWhile p = c :: t := by
  simp [List.dropWhile_cons, h]

lemma takeWhile_cons_of_neg {p : Char → Bool} {c : Char} {t : Str} (h : p c = false) :
    (c :: t).takeWhile p = [] := by
  simp [List.takeWhile_cons, h]

-- ==========================================
-- Phone normalisation (src/main.py: clean_phone, normalize_phone)
-- ==========================================

/-- Source `clean_phone`: remove every non-digit character. -/
def clean_phone (p : Str) : Str := p.filter isDigitChar

/-- The character set `"380"` used by `digits.lstrip("380")`. -/
def is380Char (c : Char) : Bool := c == '3' || c == '8' || c == '0'

/-- Source `normalize_phone`: strip non-digits; a leading national `0` gets `38`
prepended; if the result does not start with `380`, prepend `380` after
set-stripping any leading `3`/`8`/`0` characters (`str.lstrip("380")`);
finally prepend `+`. -/
def normalize_phone (phone : Str) : Str :=
  let d0 := clean_phone phone
  let d1 := if ['0'].isPrefixOf d0 then '3' :: '8' :: d0 else d0
  let d2 := if ['3', '8', '0'].isPrefixOf d1 then d1
            else '3' :: '8' :: '0' :: d1.dropWhile is380Char
  '+' :: d2

lemma isPrefixOf_zero_iff (l : Str) :
    (['0'].isPrefixOf l = true) ↔ ∃ t, l = '0' :: t := by
  cases l with
  | nil => simp [List.isPrefixOf]
  | cons c t =>
      simp only [List.isPrefixOf, Bool.and_eq_true, beq_iff_eq]
      constructor
      · rintro ⟨h, -⟩; exact ⟨t, by simp [h.symm]⟩
      · rintro ⟨u, hu⟩
        obtain ⟨rfl, rfl⟩ : c = '0' ∧ t = u := by
          constructor <;> [exact (List.cons.injEq .. ▸ hu).1 ▸ rfl; exact (List.cons.injEq .. ▸ hu).2 ▸ rfl]
        simp [List.isPrefixOf]

lemma isPrefixOf_380_iff (l : Str) :
    (['3', '8', '0'].isPrefixOf l = true) ↔ ∃ t, l = '3' :: '8' :: '0' :: t := by
  match l with
  | [] => simp [List.isPrefixOf]
  | [a] => simp [List.isPrefixOf]
  | [a, b] => simp [List.isPrefixOf]
  | a :: b :: c :: t =>
      simp only [List.isPrefixOf, Bool.and_eq_true, beq_iff_eq]
      constructor
      · rintro ⟨ha, hb, hc, -⟩
        exact ⟨t, by simp [ha.symm, hb.symm, hc.symm]⟩
      · rintro ⟨u, hu⟩
        injection hu with h1 hu; injection hu with h2 hu; injection hu with h3 hu
        simp [h1, h2, h3, List.isPrefixOf]

lemma clean_phone_all_digits (s : Str) : (clean_phone s).all isDigitChar = true := by
  simp only [clean_phone, List.all_eq_true]
  intro c hc
  exact (List.mem_filter.mp hc).2

/-- Every output of `normalize_phone` is a `+` followed by digits starting `380`. -/
lemma normalize_phone_shape (s : Str) :
    ∃ t, normalize_phone s = '+' :: '3' :: '8' :: '0' :: t ∧ t.all isDigitChar = true := by
  unfold normalize_phone
  have hall := clean_phone_all_digits s
  set d0 := clean_phone s with hd0
  by_cases h0 : ['0'].isPrefixOf d0
  · obtain ⟨t0, ht0⟩ := (isPrefixOf_zero_iff d0).mp h0
    have hpre : (['3', '8', '0'].isPrefixOf ('3' :: '8' :: d0)) = true := by
      rw [ht0]; exact (isPrefixOf_380_iff _).mpr ⟨t0, rfl⟩
    refine ⟨t0, ?_, ?_⟩
    · simp [h0, hpre, ht0]
    · rw [ht0] at hall
      simp only [List.all_cons, Bool.and_eq_true] at hall
      exact hall.2
  · simp only [h0, if_false]
    by_cases h3 : ['3', '8', '0'].isPrefixOf d0
    · obtain ⟨t1, ht1⟩ := (isPrefixOf_380_iff d0).mp h3
      refine ⟨t1, by simp [h3, ht1], ?_⟩
      rw [ht1] at hall
      simp only [List.all_cons, Bool.and_eq_true] at hall
      exact hall.2.2.2
    · refine ⟨d0.dropWhile is380Char, by simp [h3], all_of_dropWhile hall⟩

/-- An already-canonical `+380<digits>` string is a fixed point of `normalize_phone`. -/
lemma normalize_phone_canon (t : Str) (ht : t.all isDigitChar = true) :
    normalize_phone ('+' :: '3' :: '8' :: '0' :: t) = '+' :: '3' :: '8' :: '0' :: t := by
  have hclean : clean_phone ('+' :: '3' :: '8' :: '0' :: t) = '3' :: '8' :: '0' :: t := by
    have hft : t.filter isDigitChar = t :=
      List.filter_eq_self.mpr fun c hc => (List.all_eq_true.mp ht) c hc
    have hsplit : ('+' :: '3' :: '8' :: '0' :: t) = ['+', '3', '8', '0'] ++ t := rfl
    have hhead : (['+', '3', '8', '0'] : Str).filter isDigitChar = ['3', '8', '0'] := by decide
    rw [clean_phone, hsplit, List.filter_append, hhead, hft]
    rfl
  unfold normalize_phone
  rw [hclean]
  have h0 : (['0'].isPrefixOf ('3' :: '8' :: '0' :: t)) = false := by
    simp [List.isPrefixOf]
  have h3 : (['3', '8', '0'].isPrefixOf ('3' :: '8' :: '0' :: t)) = true :=
    (isPrefixOf_380_iff _).mpr ⟨t, rfl⟩
  simp [h0, h3]

/-- Claim C7: phone normalization is idempotent, and an already-canonical
phone of the form `+380<digits>` is returned unchanged. -/
theorem C7_normalize_phone_idempotent (s : Str) :
    normalize_phone (normalize_phone s) = normalize_phone s ∧
    ∀ t : Str, t.all isDigitChar = true →
      normalize_phone ('+' :: '3' :: '8' :: '0' :: t) = '+' :: '3' :: '8' :: '0' :: t := by
  constructor
  · obtain ⟨t, ht, hall⟩ := normalize_phone_shape s
    rw [ht]
    exact normalize_phone_canon t hall
  · exact normalize_phone_canon

/-- Witness for C7 at a concrete phone string. -/
theorem C7_witness :
    normalize_phone (normalize_phone ['0', '6', '3', '1']) = normalize_phone ['0', '6', '3', '1'] ∧
    normalize_phone ['+', '3', '8', '0', '1', '2', '3'] = ['+', '3', '8', '0', '1', '2', '3'] :=
  ⟨(C7_normalize_phone_idempotent ['0', '6', '3', '1']).1,
   (C7_normalize_phone_idempotent []).2 ['1', '2', '3'] (by decide)⟩

/-- Claim C10: for every input, `normalize_phone` returns `+` followed only
by digits and beginning with `380`; the empty input yields exactly `+380`. -/
theorem C10_normalize_phone_always_prefixed (s : Str) :
    (∃ t, normalize_phone s = '+' :: '3' :: '8' :: '0' :: t ∧ t.all isDigitChar = true) ∧
    normalize_phone [] = ['+', '3', '8', '0'] :=
  ⟨normalize_phone_shape s, by decide⟩

-- ==========================================
-- Grammar parser (src/main.py: parse_message)
--
-- The source builds the regex
--   ^(<code1>|<code2>|...)\s+(\+?[0-9]+)\s*\|\s*(.+)
-- with flags IGNORECASE and DOTALL and matches it against text.strip().
-- For codes made of uppercase letters and digits (the shape the registry
-- stores) the pattern has no metacharacters, and every quantifier in it is
-- effectively deterministic-greedy except the final \s*(.+), whose
-- backtracking step is embedded explicitly below.
-- ==========================================

/-- Match one registry code case-insensitively at the head of the text,
returning the remainder (the code alternation `(<c1>|<c2>|...)` of the
pattern, one alternative). -/
def dropCodeCI : Str → Str → Option Str
  | [], t => some t
  | _ :: _, [] => none
  | c :: cs, d :: ds => if d.toUpper = c then dropCodeCI cs ds else none

/-- The token `[0-9]+`: a non-empty greedy run of digits. -/
def digitsTok (l : Str) : Option (Str × Str) :=
  if (l.takeWhile isDigitChar).isEmpty then none
  else some (l.takeWhile isDigitChar, l.dropWhile isDigitChar)

/-- The token `\+?[0-9]+`: an optional plus sign then one or more digits. -/
def phoneTok (l : Str) : Option (Str × Str) :=
  match l with
  | [] => none
  | c :: rest =>
      if c = '+' then (digitsTok rest).map (fun pr => ('+' :: pr.1, pr.2))
      else digitsTok (c :: rest)

/-- The part of the pattern after the code: `\s+(\+?[0-9]+)\s*\|\s*(.+)`.
Returns the captured phone and comment. The final `\s*(.+)` pair is greedy
with one backtracking step: when everything after `|` is whitespace the
engine gives the last whitespace character back to `(.+)`. -/
def afterCode (l : Str) : Option (Str × Str) :=
  if (l.takeWhile isWsChar).isEmpty then none
  else
    match phoneTok (l.dropWhile isWsChar) with
    | none => none
    | some (ph, r1) =>
        match r1.dropWhile isWsChar with
        | [] => none
        | c :: r2 =>
            if c = '|' then
              if r2.isEmpty then none
              else some (ph, r2.drop (min (r2.takeWhile isWsChar).length (r2.length - 1)))
            else none

/-- One alternative of the code alternation followed by the rest of the
pattern. -/
def codeMatch (code t : Str) : Option (Str × Str) :=
  match dropCodeCI code t with
  | some rest => afterCode rest
  | none => none

/-- Try the code alternatives in registry order, as the regex alternation
does, falling through to the next code when the rest of the pattern fails. -/
def tryCodes (codes : List Str) (t : Str) : Option (Str × Str × Str) :=
  match codes with
  | [] => none
  | c :: cs =>
      match codeMatch c t with
      | some (ph, cm) => some (c, normalize_phone ph, pyStrip cm)
      | none => tryCodes cs t

/-- Source `parse_message`, parameterised by the code list the source fetches from
the category registry: with no categories it fails; otherwise it matches the
dynamic pattern against the stripped text and returns the upper-cased code,
the normalised phone and the stripped comment. -/
def parse_message (codes : List Str) (text : Str) : Option (Str × Str × Str) :=
  if codes.isEmpty then none
  else tryCodes codes (pyStrip text)

/-- The phone-token language `\+?[0-9]+`. -/
def PhoneTokStr (p : Str) : Prop :=
  ∃ ds, ds ≠ [] ∧ ds.all isDigitChar = true ∧ (p = ds ∨ p = '+' :: ds)

/-- The language the spec describes for the grammar: a registered code
(case-insensitively), mandatory whitespace, a phone token, the `|`
separator with optional surrounding whitespace, and a non-empty comment. -/
def GrammarAccepts (codes : List Str) (t : Str) : Prop :=
  ∃ code ∈ codes, ∃ c0 w1 ph w2 w3 cm : Str,
    t = c0 ++ w1 ++ ph ++ w2 ++ '|' :: (w3 ++ cm) ∧
    c0.map Char.toUpper = code ∧
    w1 ≠ [] ∧ w1.all isWsChar = true ∧
    PhoneTokStr ph ∧
    w2.all isWsChar = true ∧ w3.all isWsChar = true ∧ cm ≠ []

/-- Codes as stored by the registry: non-empty words over `[A-Z0-9]`. -/
def GoodCode (c : Str) : Prop :=
  c ≠ [] ∧ c.all (fun ch => ('A' ≤ ch && ch ≤ 'Z') || ('0' ≤ ch && ch ≤ '9')) = true

-- Character-class facts

lemma ws_not_digit {c : Char} (h : isWsChar c = true) : isDigitChar c = false := by
  simp only [isWsChar, Bool.or_eq_true, beq_iff_eq] at h
  rcases h with ((((h | h) | h) | h) | h) | h <;> subst h <;> decide

lemma digit_not_ws {c : Char} (h : isDigitChar c = true) : isWsChar c = false := by
  by_cases hw : isWsChar c = true
  · rw [ws_not_digit hw] at h
    exact absurd h (by simp)
  · simpa using hw

lemma ws_not_pipe {c : Char} (h : isWsChar c = true) : c ≠ '|' := by
  simp only [isWsChar, Bool.or_eq_true, beq_iff_eq] at h
  rcases h with ((((h | h) | h) | h) | h) | h <;> subst h <;> decide

lemma takeWhile_all_self (p : Char → Bool) (l : Str) : (l.takeWhile p).all p = true := by
  induction l with
  | nil => simp
  | cons c t ih =>
      by_cases hp : p c = true
      · simp [List.takeWhile_cons, hp, ih]
      · simp [List.takeWhile_cons, hp]

lemma dropWhile_eq_self_of_takeWhile_nil {p : Char → Bool} {l : Str}
    (h : l.takeWhile p = []) : l.dropWhile p = l := by
  cases l with
  | nil => rfl
  | cons c t =>
      by_cases hp : p c = true
      · simp [List.takeWhile_cons, hp] at h
      · simp [List.dropWhile_cons, hp]

-- Characterisation of the code alternation

lemma dropCodeCI_some_iff (code : Str) : ∀ t rest : Str,
    (dropCodeCI code t = some rest ↔ ∃ c0, c0.map Char.toUpper = code ∧ t = c0 ++ rest) := by
  induction code with
  | nil =>
      intro t rest
      simp only [dropCodeCI, Option.some.injEq]
      constructor
      · rintro rfl; exact ⟨[], rfl, rfl⟩
      · rintro ⟨c0, hc0, rfl⟩
        rw [List.map_eq_nil_iff] at hc0
        simp [hc0]
  | cons c cs ih =>
      intro t rest
      cases t with
      | nil =>
          simp only [dropCodeCI]
          constructor
          · intro h; exact absurd h (by simp)
          · rintro ⟨c0, hc0, habs⟩
            cases c0 with
            | nil => simp at hc0
            | cons d ds => simp at habs
      | cons d ds =>
          simp only [dropCodeCI]
          by_cases hd : d.toUpper = c
          · rw [if_pos hd, ih ds rest]
            constructor
            · rintro ⟨c0, hc0, rfl⟩
              exact ⟨d :: c0, by simp [hd, hc0], rfl⟩
            · rintro ⟨c0, hc0, heq⟩
              cases c0 with
              | nil => simp at hc0
              | cons e es =>
                  simp only [List.map_cons, List.cons.injEq] at hc0
                  simp only [List.cons_append, List.cons.injEq] at heq
                  exact ⟨es, hc0.2, heq.2⟩
          · rw [if_neg hd]
            constructor
            · intro h; exact absurd h (by simp)
            · rintro ⟨c0, hc0, heq⟩
              cases c0 with
              | nil => simp at hc0
              | cons e es =>
                  simp only [List.map_cons, List.cons.injEq] at hc0
                  simp only [List.cons_append, List.cons.injEq] at heq
                  exact absurd (heq.1 ▸ hc0.1) hd

-- Characterisation of the phone token

lemma digitsTok_eq_some {l ph r : Str} (h : digitsTok l = some (ph, r)) :
    l = ph ++ r ∧ ph ≠ [] ∧ ph.all isDigitChar = true := by
  unfold digitsTok at h
  by_cases he : (l.takeWhile isDigitChar).isEmpty = true
  · rw [if_pos he] at h; exact absurd h (by simp)
  · rw [if_neg he] at h
    injection h with h'
    obtain ⟨hph, hr⟩ : l.takeWhile isDigitChar = ph ∧ l.dropWhile isDigitChar = r := by
      exact ⟨congrArg Prod.fst h', congrArg Prod.snd h'⟩
    refine ⟨by rw [← hph, ← hr, List.takeWhile_append_dropWhile], ?_, ?_⟩
    · rw [← hph]; intro hnil; rw [hnil] at he; exact he (by simp)
    · rw [← hph]; exact takeWhile_all_self _ _

lemma digitsTok_of_split {ds r : Str} (hne : ds ≠ []) (hall : ds.all isDigitChar = true)
    (hr : r.takeWhile isDigitChar = []) : digitsTok (ds ++ r) = some (ds, r) := by
  have htake : (ds ++ r).takeWhile isDigitChar = ds := by
    rw [takeWhile_append_of_all hall, hr, List.append_nil]
  have hdrop : (ds ++ r).dropWhile isDigitChar = r := by
    rw [dropWhile_append_of_all hall, dropWhile_eq_self_of_takeWhile_nil hr]
  unfold digitsTok
  rw [htake, hdrop, if_neg (by simpa using hne)]

lemma phoneTok_eq_some {l ph r : Str} (h : phoneTok l = some (ph, r)) :
    l = ph ++ r ∧ PhoneTokStr ph := by
  cases l with
  | nil => simp [phoneTok] at h
  | cons c rest =>
      simp only [phoneTok] at h
      by_cases hc : c = '+'
      · rw [if_pos hc] at h
        cases hdt : digitsTok rest with
        | none => rw [hdt] at h; exact absurd h (by simp)
        | some pr =>
            rw [hdt] at h
            obtain ⟨ds, r0⟩ := pr
            simp only [Option.map_some', Option.some.injEq] at h
            obtain ⟨hsplit, hdne, hdall⟩ := digitsTok_eq_some hdt
            obtain ⟨hph, hr⟩ : '+' :: ds = ph ∧ r0 = r :=
              ⟨congrArg Prod.fst h, congrArg Prod.snd h⟩
            subst hc
            refine ⟨by rw [← hph, ← hr, hsplit]; rfl, ?_⟩
            exact ⟨ds, hdne, hdall, Or.inr hph.symm⟩
      · rw [if_neg hc] at h
        obtain ⟨hsplit, hdne, hdall⟩ := digitsTok_eq_some h
        exact ⟨hsplit, ⟨ph, hdne, hdall, Or.inl rfl⟩⟩

lemma isEmpty_false_of_ne_nil {α : Type} {l : List α} (h : l ≠ []) : l.isEmpty = false := by
  cases l with
  | nil => exact absurd rfl h
  | cons a b => rfl

lemma eq_nil_of_isEmpty {α : Type} {l : List α} (h : l.isEmpty = true) : l = [] := by
  cases l with
  | nil => rfl
  | cons a b => simp at h

lemma phoneTok_of_split {ph r : Str} (hp : PhoneTokStr ph)
    (hr : r.takeWhile isDigitChar = []) : phoneTok (ph ++ r) = some (ph, r) := by
  obtain ⟨ds, hne, hall, hcase⟩ := hp
  cases hcase with
  | inl heq =>
      cases hds : ds with
      | nil => exact absurd hds hne
      | cons d dt =>
          have hd : isDigitChar d = true := by
            rw [hds] at hall
            exact (Bool.and_eq_true ..▸ (List.all_cons .. ▸ hall)).1
          have hdplus : d ≠ '+' := by
            intro hplus
            rw [hplus] at hd
            exact absurd hd (by decide)
          rw [heq, hds]
          simp only [List.cons_append, phoneTok, if_neg hdplus]
          rw [← List.cons_append, ← hds]
          exact digitsTok_of_split hne hall hr
  | inr hplus =>
      subst hplus
      simp only [List.cons_append, phoneTok, if_pos rfl]
      rw [digitsTok_of_split hne hall hr]
      rfl

-- Characterisation of the rest of the pattern after the code

lemma afterCode_eq_some {l ph cm : Str} (h : afterCode l = some (ph, cm)) :
    ∃ w1 w2 w3 cm' : Str,
      l = w1 ++ ph ++ w2 ++ '|' :: (w3 ++ cm') ∧
      w1 ≠ [] ∧ w1.all isWsChar = true ∧ PhoneTokStr ph ∧
      w2.all isWsChar = true ∧ w3.all isWsChar = true ∧ cm' ≠ [] := by
  unfold afterCode at h
  by_cases h1 : (l.takeWhile isWsChar).isEmpty = true
  · rw [if_pos h1] at h; exact absurd h (by simp)
  · rw [if_neg h1] at h
    cases hpt : phoneTok (l.dropWhile isWsChar) with
    | none => rw [hpt] at h; exact absurd h (by simp)
    | some pr =>
        rw [hpt] at h
        obtain ⟨ph0, r1⟩ := pr
        simp only at h
        cases hdw : r1.dropWhile isWsChar with
        | nil => rw [hdw] at h; exact absurd h (by simp)
        | cons c r2 =>
            rw [hdw] at h
            simp only at h
            by_cases hc : c = '|'
            · rw [if_pos hc] at h
              by_cases he : r2.isEmpty = true
              · rw [if_pos he] at h; exact absurd h (by simp)
              · rw [if_neg he] at h
                simp only [Option.some.injEq, Prod.mk.injEq] at h
                obtain ⟨hph0, hcm⟩ := h
                subst hph0
                have hr2ne : r2 ≠ [] := fun hnil => he (by rw [hnil]; rfl)
                set j := min (r2.takeWhile isWsChar).length (r2.length - 1) with hj
                have hjle : j ≤ (r2.takeWhile isWsChar).length := min_le_left _ _
                have hjlt : j < r2.length := by
                  have h1len : 0 < r2.length := List.length_pos.mpr hr2ne
                  have := min_le_right (r2.takeWhile isWsChar).length (r2.length - 1)
                  omega
                obtain ⟨hsplit1, hphs⟩ := phoneTok_eq_some hpt
                refine ⟨l.takeWhile isWsChar, r1.takeWhile isWsChar, r2.take j, r2.drop j,
                        ?_, fun hnil => h1 (by rw [hnil]; rfl), takeWhile_all_self _ _, hphs,
                        takeWhile_all_self _ _, ?_, ?_⟩
                · have hr1 : r1 = r1.takeWhile isWsChar ++ ('|' :: r2) := by
                    conv_lhs => rw [← List.takeWhile_append_dropWhile (p := isWsChar) (l := r1)]
                    rw [hdw, hc]
                  rw [List.take_append_drop j r2]
                  conv_lhs =>
                    rw [← List.takeWhile_append_dropWhile (p := isWsChar) (l := l), hsplit1, hr1]
                  simp [List.append_assoc]
                · have hpre : r2.take j = (r2.takeWhile isWsChar).take j := by
                    conv_lhs => rw [← List.takeWhile_append_dropWhile (p := isWsChar) (l := r2)]
                    rw [List.take_append_of_le_length hjle]
                  rw [hpre, List.all_eq_true]
                  intro x hx
                  exact List.mem_takeWhile_imp (List.mem_of_mem_take hx)
                · intro hnil
                  have hlen : (r2.drop j).length = 0 := by rw [hnil]; rfl
                  rw [List.length_drop] at hlen
                  omega
            · rw [if_neg hc] at h
              exact absurd h (by simp)

lemma afterCode_of_split {w1 ph w2 w3 cm : Str}
    (hw1 : w1 ≠ []) (hw1a : w1.all isWsChar = true) (hph : PhoneTokStr ph)
    (hw2 : w2.all isWsChar = true) (hw3 : w3.all isWsChar = true) (hcm : cm ≠ []) :
    afterCode (w1 ++ ph ++ w2 ++ '|' :: (w3 ++ cm)) ≠ none := by
  have hphhead : ∃ pc pt, ph = pc :: pt ∧ isWsChar pc = false := by
    obtain ⟨ds, hne, hall, hcase⟩ := hph
    cases hcase with
    | inl hds =>
        cases hd0 : ds with
        | nil => exact absurd hd0 hne
        | cons d dt =>
            refine ⟨d, dt, by rw [hds, hd0], digit_not_ws ?_⟩
            rw [hd0] at hall
            exact (Bool.and_eq_true ..▸ (List.all_cons .. ▸ hall)).1
    | inr hds => exact ⟨'+', ds, hds, by decide⟩
  obtain ⟨pc, pt, hphc, hpcws⟩ := hphhead
  have hl : w1 ++ ph ++ w2 ++ '|' :: (w3 ++ cm) = w1 ++ (ph ++ (w2 ++ '|' :: (w3 ++ cm))) := by
    simp [List.append_assoc]
  rw [hl]
  have htake : ((w1 ++ (ph ++ (w2 ++ '|' :: (w3 ++ cm)))).takeWhile isWsChar) = w1 := by
    rw [takeWhile_append_of_all hw1a, hphc, List.cons_append,
        takeWhile_cons_of_neg hpcws, List.append_nil]
  have hdrop : ((w1 ++ (ph ++ (w2 ++ '|' :: (w3 ++ cm)))).dropWhile isWsChar)
      = ph ++ (w2 ++ '|' :: (w3 ++ cm)) := by
    rw [dropWhile_append_of_all hw1a, hphc, List.cons_append,
        dropWhile_cons_of_neg hpcws, ← List.cons_append]
  have htailNoDigit : (w2 ++ '|' :: (w3 ++ cm)).takeWhile isDigitChar = [] := by
    cases w2 with
    | nil => exact takeWhile_cons_of_neg (by decide)
    | cons c w2t =>
        have hcws : isWsChar c = true :=
          (Bool.and_eq_true ..▸ (List.all_cons .. ▸ hw2)).1
        rw [List.cons_append]
        exact takeWhile_cons_of_neg (ws_not_digit hcws)
  have hpt : phoneTok (ph ++ (w2 ++ '|' :: (w3 ++ cm))) = some (ph, w2 ++ '|' :: (w3 ++ cm)) :=
    phoneTok_of_split hph htailNoDigit
  have hdw : (w2 ++ '|' :: (w3 ++ cm)).dropWhile isWsChar = '|' :: (w3 ++ cm) := by
    rw [dropWhile_append_of_all hw2, dropWhile_cons_of_neg (by decide)]
  have hr2ne : (w3 ++ cm) ≠ [] := by
    intro hnil
    exact hcm (List.append_eq_nil.mp hnil).2
  have hres : afterCode (w1 ++ (ph ++ (w2 ++ '|' :: (w3 ++ cm)))) =
      some (ph, (w3 ++ cm).drop
        (min ((w3 ++ cm).takeWhile isWsChar).length ((w3 ++ cm).length - 1))) := by
    unfold afterCode
    rw [htake, if_neg (fun hbad => hw1 (eq_nil_of_isEmpty hbad)), hdrop, hpt]
    simp only
    rw [hdw]
    simp only [if_pos rfl]
    rw [if_neg (fun hbad => hr2ne (eq_nil_of_isEmpty hbad))]
    simp
  rw [hres]
  simp

lemma tryCodes_eq_none_iff (codes : List Str) (t : Str) :
    tryCodes codes t = none ↔ ∀ c ∈ codes, codeMatch c t = none := by
  induction codes with
  | nil => simp [tryCodes]
  | cons c cs ih =>
      cases hcm : codeMatch c t with
      | none =>
          simp only [tryCodes, hcm]
          rw [ih]
          constructor
          · intro h d hd
            rcases List.mem_cons.mp hd with rfl | hd'
            · exact hcm
            · exact h d hd'
          · intro h d hd
            exact h d (List.mem_cons_of_mem _ hd)
      | some pr =>
          obtain ⟨ph, cm⟩ := pr
          simp only [tryCodes, hcm]
          constructor
          · intro h; exact absurd h (by simp)
          · intro h
            exact absurd hcm (by rw [h c (List.mem_cons_self c cs)]; simp)

lemma codeMatch_ne_none_iff (code t : Str) :
    codeMatch code t ≠ none ↔
      ∃ c0 w1 ph w2 w3 cm : Str,
        t = c0 ++ w1 ++ ph ++ w2 ++ '|' :: (w3 ++ cm) ∧
        c0.map Char.toUpper = code ∧
        w1 ≠ [] ∧ w1.all isWsChar = true ∧
        PhoneTokStr ph ∧
        w2.all isWsChar = true ∧ w3.all isWsChar = true ∧ cm ≠ [] := by
  constructor
  · intro h
    unfold codeMatch at h
    cases hdc : dropCodeCI code t with
    | none => rw [hdc] at h; simp at h
    | some rest =>
        rw [hdc] at h
        simp only at h
        obtain ⟨c0, hc0, hteq⟩ := (dropCodeCI_some_iff code t rest).mp hdc
        cases hac : afterCode rest with
        | none => rw [hac] at h; simp at h
        | some pr =>
            obtain ⟨ph, cm0⟩ := pr
            obtain ⟨w1, w2, w3, cm', hrest, hw1, hw1a, hphs, hw2, hw3, hcm'⟩ :=
              afterCode_eq_some hac
            refine ⟨c0, w1, ph, w2, w3, cm', ?_, hc0, hw1, hw1a, hphs, hw2, hw3, hcm'⟩
            rw [hteq, hrest]
            simp [List.append_assoc]
  · rintro ⟨c0, w1, ph, w2, w3, cm, hteq, hc0, hw1, hw1a, hphs, hw2, hw3, hcm⟩
    have hdc : dropCodeCI code t = some (w1 ++ ph ++ w2 ++ '|' :: (w3 ++ cm)) := by
      rw [dropCodeCI_some_iff]
      refine ⟨c0, hc0, ?_⟩
      rw [hteq]
      simp [List.append_assoc]
    unfold codeMatch
    rw [hdc]
    exact afterCode_of_split hw1 hw1a hphs hw2 hw3 hcm

/-- The department registry is non-empty and all its codes are non-empty
uppercase alphanumeric words (the shape the category store enforces). -/
def GoodRegistry (codes : List Str) : Prop :=
  codes ≠ [] ∧ ∀ c ∈ codes, GoodCode c

instance : DecidablePred GoodCode := fun c => by
  unfold GoodCode; infer_instance

instance : DecidablePred GoodRegistry := fun codes => by
  unfold GoodRegistry; infer_instance

/-- Claim C2: for a department with a non-empty category registry, the
grammar parser accepts exactly the whitespace-trimmed texts of the form
`<registered code (case-insensitive)> <whitespace> <phone token> | <comment>`
with the separator `|` optionally surrounded by whitespace and a non-empty
comment; in particular every text without a `|` is rejected, and rejection
returns no partial result (`none`). -/
theorem C2_grammar_recognizes_exactly (codes : List Str) (text : Str)
    (hreg : GoodRegistry codes) :
    (parse_message codes text ≠ none ↔ GrammarAccepts codes (pyStrip text)) ∧
    ('|' ∉ pyStrip text → parse_message codes text = none) := by
  have hne : codes ≠ [] := hreg.1
  have hpm : parse_message codes text = tryCodes codes (pyStrip text) := by
    unfold parse_message
    rw [if_neg (by simp [isEmpty_false_of_ne_nil hne])]
  have hmain : parse_message codes text ≠ none ↔ GrammarAccepts codes (pyStrip text) := by
    rw [hpm]
    constructor
    · intro h
      by_contra hacc
      refine h ?_
      rw [tryCodes_eq_none_iff]
      intro c hc
      by_contra hcm
      obtain ⟨c0, w1, ph, w2, w3, cm, hsp⟩ :=
        (codeMatch_ne_none_iff c (pyStrip text)).mp hcm
      exact hacc ⟨c, hc, c0, w1, ph, w2, w3, cm, hsp⟩
    · rintro ⟨c, hc, c0, w1, ph, w2, w3, cm, hsp⟩ hnone
      rw [tryCodes_eq_none_iff] at hnone
      exact (codeMatch_ne_none_iff c (pyStrip text)).mpr
        ⟨c0, w1, ph, w2, w3, cm, hsp⟩ (hnone c hc)
  refine ⟨hmain, fun hbar => ?_⟩
  by_contra hsome
  obtain ⟨c, hc, c0, w1, ph, w2, w3, cm, hteq, -⟩ := hmain.mp hsome
  refine hbar ?_
  rw [hteq]
  simp

/-- The scenario text `"cl1 0631234567 | client called"`. -/
def exC2Text : Str :=
  ['c', 'l', '1', ' ', '0', '6', '3', '1', '2', '3', '4', '5', '6', '7', ' ', '|', ' ',
   'c', 'l', 'i', 'e', 'n', 't', ' ', 'c', 'a', 'l', 'l', 'e', 'd']

/-- Witness for C2: the registry `{CL1}` accepts the scenario message and
rejects a text without the separator. -/
theorem C2_witness :
    parse_message [['C', 'L', '1']] exC2Text ≠ none ∧
    parse_message [['C', 'L', '1']] ['h', 'i'] = none :=
  ⟨(C2_grammar_recognizes_exactly [['C', 'L', '1']] exC2Text (by decide)).1.mpr
    ⟨['C', 'L', '1'], by decide, ['c', 'l', '1'], [' '],
     ['0', '6', '3', '1', '2', '3', '4', '5', '6', '7'], [' '], [' '],
     ['c', 'l', 'i', 'e', 'n', 't', ' ', 'c', 'a', 'l', 'l', 'e', 'd'],
     by decide, by decide, by decide, by decide,
     ⟨['0', '6', '3', '1', '2', '3', '4', '5', '6', '7'], by decide, by decide,
      Or.inl (by decide)⟩,
     by decide, by decide, by decide⟩,
   (C2_grammar_recognizes_exactly [['C', 'L', '1']] ['h', 'i'] (by decide)).2 (by decide)⟩

-- ==========================================
-- Departments, categories and the category cache
-- (src/main.py: categories_cache / categories_cache_time globals,
--  add_category, delete_category, get_all_categories)
-- ==========================================

/-- The two fixed departments (chat partitions `support` / `pre_trial`). -/
inductive Dept where
  | support
  | pre_trial
deriving DecidableEq

structure Category where
  code : Str
  name : Str
deriving DecidableEq

/-- The category tables of the relational store, one per department. -/
def CatDb := Dept → List Category

/-- The two module-level dictionaries `categories_cache` and
`categories_cache_time`, each keyed by department. -/
structure CatCache where
  val : Dept → Option (List Category)
  time : Dept → Option Int

def emptyCatCache : CatCache := ⟨fun _ => none, fun _ => none⟩

/-- Deletion of both cache dictionary entries for one department. -/
def cacheErase (cache : CatCache) (dept : Dept) : CatCache :=
  ⟨fun d => if d = dept then none else cache.val d,
   fun d => if d = dept then none else cache.time d⟩

/-- Store a freshly fetched list with the current timestamp for one department. -/
def cacheStore (cache : CatCache) (dept : Dept) (v : List Category) (now : Int) : CatCache :=
  ⟨fun d => if d = dept then some v else cache.val d,
   fun d => if d = dept then some now else cache.time d⟩

/-- SQL `INSERT ... ON CONFLICT (code) DO UPDATE SET name = EXCLUDED.name`. -/
def upsertCategory (cats : List Category) (code name : Str) : List Category :=
  if cats.any (fun c => c.code == code) then
    cats.map (fun c => if c.code == code then ⟨code, name⟩ else c)
  else cats ++ [⟨code, name⟩]

/-- Source `add_category`: on database success, upsert the upper-cased code and
eagerly delete the department's cache entry (both dictionaries); on a
database error nothing changes and the cache is kept. Returns the new
store, the new cache, and the success flag. -/
def add_category (db : CatDb) (cache : CatCache) (code name : Str) (dept : Dept)
    (dbOk : Bool) : CatDb × CatCache × Bool :=
  if dbOk then
    (fun d => if d = dept then upsertCategory (db d) (pyUpper code) name else db d,
     cacheErase cache dept, true)
  else (db, cache, false)

/-- Source `delete_category`: on database success, delete the row with the
upper-cased code and eagerly delete the department's cache entry; returns
whether a row was deleted (`rowcount > 0`). -/
def delete_category (db : CatDb) (cache : CatCache) (code : Str) (dept : Dept)
    (dbOk : Bool) : CatDb × CatCache × Bool :=
  if dbOk then
    (fun d => if d = dept then (db d).filter (fun c => !(c.code == pyUpper code)) else db d,
     cacheErase cache dept, (db dept).any (fun c => c.code == pyUpper code))
  else (db, cache, false)

/-- The cache-hit test of `get_all_categories`: both dictionaries hold the
department and the entry is younger than 60 seconds. -/
def cacheFresh (cache : CatCache) (dept : Dept) (now : Int) : Option (List Category) :=
  match cache.val dept, cache.time dept with
  | some v, some t => if now - t < 60 then some v else none
  | _, _ => none

/-- Source `get_all_categories`: serve from the cache when `use_cache` is set and
the entry is fresh; otherwise query the store and, only when `use_cache`
is set, record the result with the current timestamp. Returns the list and
the resulting cache state. -/
def get_all_categories (db : CatDb) (cache : CatCache) (dept : Dept) (now : Int)
    (use_cache : Bool) : List Category × CatCache :=
  match (if use_cache then cacheFresh cache dept now else none) with
  | some v => (v, cache)
  | none =>
      (db dept, if use_cache then cacheStore cache dept (db dept) now else cache)

/-- Claim C5: a category mutation (add/update or delete) eagerly removes the
department's cache entry, so a cached read issued right after the mutation
returns exactly the mutated store content regardless of the entry's age. -/
theorem C5_mutation_invalidates_cache (db : CatDb) (cache : CatCache) (code name : Str)
    (dept : Dept) (now : Int) :
    ((add_category db cache code name dept true).2.1.val dept = none ∧
      (get_all_categories (add_category db cache code name dept true).1
        (add_category db cache code name dept true).2.1 dept now true).1 =
        (add_category db cache code name dept true).1 dept) ∧
    ((delete_category db cache code dept true).2.1.val dept = none ∧
      (get_all_categories (delete_category db cache code dept true).1
        (delete_category db cache code dept true).2.1 dept now true).1 =
        (delete_category db cache code dept true).1 dept) := by
  constructor
  · constructor
    · simp [add_category, cacheErase]
    · simp [add_category, get_all_categories, cacheFresh, cacheErase]
  · constructor
    · simp [delete_category, cacheErase]
    · simp [delete_category, get_all_categories, cacheFresh, cacheErase]

/-- Counterexample to C8 as stated: with `use_cache = false` the function
queries the store but does **not** store the fresh result in the cache —
after the call the department's cache entry still does not hold the
returned list, while the claim requires it to be stored in every non-hit
case. -/
theorem C8_counterexample :
    ¬ ((get_all_categories (fun _ => [⟨['A', 'B'], ['n']⟩]) emptyCatCache
          Dept.support 100 false).2.val Dept.support =
        some ((get_all_categories (fun _ => [⟨['A', 'B'], ['n']⟩]) emptyCatCache
          Dept.support 100 false).1)) := by
  intro h
  simp [get_all_categories, cacheFresh, emptyCatCache] at h

/-- Claim C8 amended: `get_all_categories` returns the cached sequence iff a
cache entry exists in both dictionaries, is less than 60 seconds old, and
`use_cache` is true; in every other case it queries the store and returns
the fresh result, storing it with the current timestamp only when
`use_cache` is true (a `use_cache = false` call leaves the cache unchanged). -/
theorem C8_cache_read_characterised (db : CatDb) (cache : CatCache) (dept : Dept)
    (now : Int) (v : List Category) (t : Int) :
    (cache.val dept = some v → cache.time dept = some t → now - t < 60 →
      get_all_categories db cache dept now true = (v, cache)) ∧
    (cache.val dept = some v → cache.time dept = some t → 60 ≤ now - t →
      get_all_categories db cache dept now true
        = (db dept, cacheStore cache dept (db dept) now)) ∧
    ((cache.val dept = none ∨ cache.time dept = none) →
      get_all_categories db cache dept now true
        = (db dept, cacheStore cache dept (db dept) now)) ∧
    (get_all_categories db cache dept now false = (db dept, cache)) := by
  refine ⟨?_, ?_, ?_, ?_⟩
  · intro hv ht hfresh
    unfold get_all_categories cacheFresh
    rw [hv, ht]
    simp [hfresh]
  · intro hv ht hstale
    have hnl : ¬ now - t < 60 := by omega
    unfold get_all_categories cacheFresh
    rw [hv, ht]
    simp [hnl]
  · intro hmiss
    unfold get_all_categories cacheFresh
    rcases hmiss with hv | ht
    · rw [hv]
      cases cache.time dept <;> simp
    · rw [ht]
      cases cache.val dept <;> simp
  · rfl

/-- Witness for C8 amended, exercising the fresh-hit, expired, missing-entry
and no-cache branches at concrete states. -/
theorem C8_witness :
    (get_all_categories (fun _ => [⟨['B'], ['m']⟩])
        ⟨fun _ => some [⟨['A'], ['n']⟩], fun _ => some 50⟩ Dept.support 60 true
      = ([⟨['A'], ['n']⟩], ⟨fun _ => some [⟨['A'], ['n']⟩], fun _ => some 50⟩)) ∧
    (get_all_categories (fun _ => [⟨['B'], ['m']⟩])
        ⟨fun _ => some [⟨['A'], ['n']⟩], fun _ => some 50⟩ Dept.support 200 true
      = ([⟨['B'], ['m']⟩],
         cacheStore ⟨fun _ => some [⟨['A'], ['n']⟩], fun _ => some 50⟩ Dept.support
           [⟨['B'], ['m']⟩] 200)) ∧
    (get_all_categories (fun _ => [⟨['B'], ['m']⟩]) emptyCatCache Dept.support 0 true
      = ([⟨['B'], ['m']⟩], cacheStore emptyCatCache Dept.support [⟨['B'], ['m']⟩] 0)) ∧
    (get_all_categories (fun _ => [⟨['B'], ['m']⟩]) emptyCatCache Dept.support 0 false
      = ([⟨['B'], ['m']⟩], emptyCatCache)) :=
  ⟨(C8_cache_read_characterised _ _ Dept.support 60 [⟨['A'], ['n']⟩] 50).1 rfl rfl (by norm_num),
   (C8_cache_read_characterised _ _ Dept.support 200 [⟨['A'], ['n']⟩] 50).2.1 rfl rfl (by norm_num),
   (C8_cache_read_characterised _ _ Dept.support 0 [] 0).2.2.1 (Or.inl rfl),
   (C8_cache_read_characterised _ _ Dept.support 0 [] 0).2.2.2⟩

-- ==========================================
-- Records and duplicate detection
-- (src/main.py: add_record, check_duplicate_record)
-- ==========================================

/-- One row of a department's `records` table. -/
structure Rec where
  emp : Int
  cat : Str
  phone : Str
  comment : Str
  created_at : Int
deriving DecidableEq

/-- The record tables of the relational store, one per department. -/
def RecDb := Dept → List Rec

/-- Source `check_duplicate_record`: counts rows of the department's record table
with the exact `(employee, upper-cased category, phone)` triple whose
timestamp is strictly inside the trailing `minutes` window, and reports
whether any exists (`timestamp > NOW() - make_interval(mins => minutes)`). -/
def check_duplicate_record (rdb : RecDb) (now : Int) (emp : Int) (code phone : Str)
    (dept : Dept) (minutes : Int) : Bool :=
  (rdb dept).any fun r =>
    decide (r.emp = emp ∧ r.cat = pyUpper code ∧ r.phone = phone ∧
      now - minutes * 60 < r.created_at)

/-- Claim C3: the 5-minute duplicate check returns true when a record with
the exact triple was created strictly within the trailing 5 minutes, and
false when every record with that triple is at least 5 minutes and 1 second
old at the time of the check. -/
theorem C3_duplicate_window (rdb : RecDb) (now : Int) (emp : Int) (code phone : Str)
    (dept : Dept) :
    ((∃ r ∈ rdb dept, r.emp = emp ∧ r.cat = pyUpper code ∧ r.phone = phone ∧
        0 ≤ now - r.created_at ∧ now - r.created_at < 300) →
      check_duplicate_record rdb now emp code phone dept 5 = true) ∧
    ((∀ r ∈ rdb dept, r.emp = emp → r.cat = pyUpper code → r.phone = phone →
        301 ≤ now - r.created_at) →
      check_duplicate_record rdb now emp code phone dept 5 = false) := by
  constructor
  · rintro ⟨r, hr, hemp, hcat, hph, -, hage⟩
    unfold check_duplicate_record
    rw [List.any_eq_true]
    exact ⟨r, hr, by rw [decide_eq_true_eq]; exact ⟨hemp, hcat, hph, by omega⟩⟩
  · intro hall
    unfold check_duplicate_record
    rw [List.any_eq_false]
    intro r hr
    rw [decide_eq_true_eq]
    rintro ⟨hemp, hcat, hph, hage⟩
    have := hall r hr hemp hcat hph
    omega

/-- Witness for C3: a 60-second-old record is flagged, a 301-second-old one
is not. -/
theorem C3_witness :
    check_duplicate_record
      (fun _ => [⟨7, ['C', 'L', '1'], ['+', '3', '8', '0'], [], 240⟩]) 300 7
      ['C', 'L', '1'] ['+', '3', '8', '0'] Dept.support 5 = true ∧
    check_duplicate_record
      (fun _ => [⟨7, ['C', 'L', '1'], ['+', '3', '8', '0'], [], 240⟩]) 541 7
      ['C', 'L', '1'] ['+', '3', '8', '0'] Dept.support 5 = false :=
  ⟨(C3_duplicate_window _ 300 7 ['C', 'L', '1'] ['+', '3', '8', '0'] Dept.support).1
    ⟨⟨7, ['C', 'L', '1'], ['+', '3', '8', '0'], [], 240⟩, by simp,
     rfl, by decide, rfl, by norm_num, by norm_num⟩,
   (C3_duplicate_window _ 541 7 ['C', 'L', '1'] ['+', '3', '8', '0'] Dept.support).2
    (by intro r hr h1 h2 h3
        simp only [List.mem_singleton] at hr
        subst hr
        norm_num)⟩

-- ==========================================
-- CRM workflow and the message pipeline
-- (src/main.py: save_record, handle_message, handle_duplicate_confirmation)
-- ==========================================

/-- A Bitrix CRM contact as returned by `find_contact_by_phone`. -/
structure Contact where
  id : Int
  name : Str
  last_name : Str

/-- The user-visible replies the modelled handlers can send. -/
inductive Reply where
  | clientNotFound
  | saved (category_name client_name : Str)
  | dbError
  | cancelled
  | duplicatePrompt (code : Str)
  | unknownCategory (code : Str)
  | askBitrixId
  | askName
  | retryTgId
  | retryBitrixId
deriving DecidableEq

/-- Source `add_record`: on database success, append a row with the upper-cased
category code and the current timestamp and return its id; on a database
error return no id and leave the table unchanged. -/
def add_record (recs : List Rec) (emp : Int) (code phone comment : Str) (now : Int)
    (dbOk : Bool) : List Rec × Option Nat :=
  if dbOk then (recs ++ [⟨emp, pyUpper code, phone, comment, now⟩], some recs.length)
  else (recs, none)

/-- The stripped concatenation of first and last contact name used in the success reply. -/
def clientDisplayName (c : Contact) : Str := pyStrip (c.name ++ ' ' :: c.last_name)

/-- Source `save_record`: look up the CRM contact by phone; if none is found reply
that the client is unknown and stop before any persistence; otherwise run
the best-effort external task creation (no tracked state) and persist the
record, reporting a database error if the insert fails. -/
def save_record (crm : Str → Option Contact) (dbOk : Bool) (recs : List Rec)
    (userId now : Int) (code phone comment category_name : Str) :
    List Rec × List Reply :=
  match crm phone with
  | none => (recs, [Reply.clientNotFound])
  | some contact =>
      let res := add_record recs userId code phone comment now dbOk
      match res.2 with
      | some _ => (res.1, [Reply.saved category_name (clientDisplayName contact)])
      | none => (res.1, [Reply.dbError])

/-- Claim C1: when the CRM contact lookup finds no contact, `save_record`
aborts before persistence — the record table is unchanged and the user is
told the client is unknown. -/
theorem C1_crm_not_found_aborts (crm : Str → Option Contact) (dbOk : Bool)
    (recs : List Rec) (userId now : Int) (code phone comment category_name : Str)
    (h : crm phone = none) :
    save_record crm dbOk recs userId now code phone comment category_name
      = (recs, [Reply.clientNotFound]) := by
  unfold save_record
  rw [h]

/-- Witness for C1 with an empty CRM. -/
theorem C1_witness :
    save_record (fun _ => none) true [] 7 0 ['C', 'L', '1'] ['+', '3', '8', '0'] ['x'] ['n']
      = ([], [Reply.clientNotFound]) :=
  C1_crm_not_found_aborts _ _ _ _ _ _ _ _ _ rfl

/-- The transient per-conversation candidate record stored under
`user_data['pending_record']`. -/
structure Pending where
  code : Str
  phone : Str
  comment : Str
  category_name : Str
  employee_name : Str
  responsible_id : Int
  department : Dept

/-- The conversation-scoped `context.user_data` fields used by the
duplicate-confirmation protocol; `user_data.clear()` resets both. -/
structure UserData where
  awaiting_duplicate_confirmation : Bool
  pending_record : Option Pending

def emptyUserData : UserData := ⟨false, none⟩

structure Employee where
  telegram_id : Int
  name : Str
  bitrix_id : Int
deriving DecidableEq

def EmpDb := Dept → List Employee

def get_employee_by_telegram_id (edb : EmpDb) (tg : Int) (dept : Dept) : Option Employee :=
  (edb dept).find? (fun e => e.telegram_id == tg)

def get_category_by_code (db : CatDb) (code : Str) (dept : Dept) : Option Category :=
  (db dept).find? (fun c => c.code == pyUpper code)

/-- The fallback CRM assignee for submitters without a roster entry. -/
def RESPONSIBLE_ID : Int := 596

def updateRecDb (rdb : RecDb) (dept : Dept) (recs : List Rec) : RecDb :=
  fun d => if d = dept then recs else rdb d

/-- Membership of the reply in the affirmative list of the source. -/
def isAffirmative (resp : Str) : Bool :=
  resp == ['т', 'а', 'к'] || resp == ['y', 'e', 's'] || resp == ['y'] || resp == ['д', 'а']

/-- The collaborators and stores one inbound message is processed against. -/
structure World where
  catDb : CatDb
  empDb : EmpDb
  recDb : RecDb
  cache : CatCache
  crm : Str → Option Contact
  dbOk : Bool
  now : Int

/-- Source `handle_duplicate_confirmation`: lower-case the stripped reply; an
affirmative runs the CRM workflow on the stored pending record, anything
else cancels; `user_data.clear()` empties the conversation state in every
branch. -/
def handle_duplicate_confirmation (w : World) (ud : UserData) (userId : Int)
    (text : Str) : UserData × RecDb × List Reply :=
  if isAffirmative (pyLower (pyStrip text)) then
    match ud.pending_record with
    | some p =>
        let res := save_record w.crm w.dbOk (w.recDb p.department) userId w.now
          p.code p.phone p.comment p.category_name
        (emptyUserData, updateRecDb w.recDb p.department res.1, res.2)
    | none => (emptyUserData, w.recDb, [])
  else (emptyUserData, w.recDb, [Reply.cancelled])

/-- Source `handle_message`: while a duplicate confirmation is pending, only the
yes/no interpretation runs; otherwise the text goes through the grammar
parser (over the codes fetched through the cached registry), the category
and employee lookups, the duplicate check (which arms the confirmation
state), and finally the CRM workflow. -/
def handle_message (w : World) (ud : UserData) (dept : Dept) (userId : Int)
    (userFullName : Str) (text : Str) : UserData × RecDb × CatCache × List Reply :=
  if ud.awaiting_duplicate_confirmation then
    let res := handle_duplicate_confirmation w ud userId text
    (res.1, res.2.1, w.cache, res.2.2)
  else
    let fetched := get_all_categories w.catDb w.cache dept w.now true
    match parse_message (fetched.1.map (fun c => c.code)) text with
    | none => (ud, w.recDb, fetched.2, [])
    | some (code, phone, comment) =>
        match get_category_by_code w.catDb code dept with
        | none => (ud, w.recDb, fetched.2, [Reply.unknownCategory code])
        | some category =>
            let er := match get_employee_by_telegram_id w.empDb userId dept with
              | some e => (e.name, e.bitrix_id)
              | none => (userFullName, RESPONSIBLE_ID)
            if check_duplicate_record w.recDb w.now userId code phone dept 5 then
              (⟨true, some ⟨code, phone, comment, category.name, er.1, er.2, dept⟩⟩,
               w.recDb, fetched.2, [Reply.duplicatePrompt code])
            else
              let res := save_record w.crm w.dbOk (w.recDb dept) userId w.now
                code phone comment category.name
              (ud, updateRecDb w.recDb dept res.1, fetched.2, res.2)

/-- Claim C4: while a conversation awaits duplicate confirmation, the next
plain message is handled only by the yes/no interpretation (grammar parsing
and the rest of the pipeline are suppressed, the cache untouched); an
affirmative reply runs the CRM workflow on the stored pending record, any
other reply leaves the record store unchanged and reports cancellation, and
the confirmation flag and pending record are cleared in every branch. -/
theorem C4_duplicate_confirmation_protocol (w : World) (ud : UserData) (dept : Dept)
    (userId : Int) (userFullName : Str) (text : Str)
    (hawait : ud.awaiting_duplicate_confirmation = true) :
    (handle_message w ud dept userId userFullName text =
      ((handle_duplicate_confirmation w ud userId text).1,
       (handle_duplicate_confirmation w ud userId text).2.1,
       w.cache,
       (handle_duplicate_confirmation w ud userId text).2.2)) ∧
    ((handle_message w ud dept userId userFullName text).1 = emptyUserData) ∧
    (∀ p, isAffirmative (pyLower (pyStrip text)) = true → ud.pending_record = some p →
      handle_duplicate_confirmation w ud userId text =
        (emptyUserData,
         updateRecDb w.recDb p.department
           (save_record w.crm w.dbOk (w.recDb p.department) userId w.now
             p.code p.phone p.comment p.category_name).1,
         (save_record w.crm w.dbOk (w.recDb p.department) userId w.now
             p.code p.phone p.comment p.category_name).2)) ∧
    (isAffirmative (pyLower (pyStrip text)) = false →
      handle_duplicate_confirmation w ud userId text
        = (emptyUserData, w.recDb, [Reply.cancelled])) := by
  have hud1 : (handle_duplicate_confirmation w ud userId text).1 = emptyUserData := by
    unfold handle_duplicate_confirmation
    by_cases ha : isAffirmative (pyLower (pyStrip text)) = true
    · rw [if_pos ha]
      cases ud.pending_record <;> simp
    · rw [if_neg ha]
  refine ⟨?_, ?_, ?_, ?_⟩
  · unfold handle_message
    rw [if_pos hawait]
  · unfold handle_message
    rw [if_pos hawait]
    exact hud1
  · intro p ha hp
    unfold handle_duplicate_confirmation
    rw [if_pos ha, hp]
  · intro hna
    unfold handle_duplicate_confirmation
    rw [if_neg (by simp [hna])]

/-- A concrete world and pending state for the C4 witness. -/
def wEx : World :=
  ⟨fun _ => [], fun _ => [], fun _ => [], emptyCatCache, fun _ => none, true, 0⟩

def pEx : Pending :=
  ⟨['C', 'L', '1'], ['+', '3', '8', '0'], ['x'], ['n'], ['e'], 596, Dept.support⟩

def udEx : UserData := ⟨true, some pEx⟩

/-- Witness for C4: a negative reply cancels without touching the store, an
upper-case Cyrillic "ТАК" is recognised as affirmative and runs the CRM
workflow on the pending record, and the conversation state is cleared. -/
theorem C4_witness :
    (handle_duplicate_confirmation wEx udEx 7 ['н', 'і']
      = (emptyUserData, wEx.recDb, [Reply.cancelled])) ∧
    (handle_duplicate_confirmation wEx udEx 7 ['Т', 'А', 'К']
      = (emptyUserData,
         updateRecDb wEx.recDb pEx.department
           (save_record wEx.crm wEx.dbOk (wEx.recDb pEx.department) 7 wEx.now
             pEx.code pEx.phone pEx.comment pEx.category_name).1,
         (save_record wEx.crm wEx.dbOk (wEx.recDb pEx.department) 7 wEx.now
             pEx.code pEx.phone pEx.comment pEx.category_name).2)) ∧
    ((handle_message wEx udEx Dept.support 7 [] ['Т', 'А', 'К']).1 = emptyUserData) :=
  ⟨(C4_duplicate_confirmation_protocol wEx udEx Dept.support 7 [] ['н', 'і'] rfl).2.2.2
     (by decide),
   (C4_duplicate_confirmation_protocol wEx udEx Dept.support 7 [] ['Т', 'А', 'К'] rfl).2.2.1
     pEx (by decide) rfl,
   (C4_duplicate_confirmation_protocol wEx udEx Dept.support 7 [] ['Т', 'А', 'К'] rfl).2.1⟩

-- ==========================================
-- Employee onboarding state machine
-- (src/main.py: add_employee_tg_id, add_employee_bitrix_id, cancel_conversation)
-- ==========================================

/-- Validity of a digit group for Python `int()`: non-empty digits with
single underscores allowed only between digits. -/
def digitsUnd : Str → Bool
  | [] => false
  | [c] => isDigitChar c
  | c :: '_' :: rest => isDigitChar c && digitsUnd rest
  | c :: rest => isDigitChar c && digitsUnd rest

def digitsVal (l : Str) : Nat :=
  l.foldl (fun a c => a * 10 + (c.toNat - '0'.toNat)) 0

/-- Python `int(str)` on ASCII input: optional surrounding whitespace, an
optional sign, then an underscore-grouped digit run; `none` models the
`ValueError` branch. -/
def pyInt (s : Str) : Option Int :=
  match pyStrip s with
  | '+' :: rest =>
      if digitsUnd rest then some (digitsVal (rest.filter (fun c => !(c == '_')))) else none
  | '-' :: rest =>
      if digitsUnd rest then some (-(digitsVal (rest.filter (fun c => !(c == '_'))))) else none
  | t => if digitsUnd t then some (digitsVal (t.filter (fun c => !(c == '_')))) else none

/-- The `ConversationHandler` states of the employee-onboarding flow, plus
the terminal `ConversationHandler.END`. -/
inductive ConvState where
  | ADD_EMPLOYEE_TG_ID
  | ADD_EMPLOYEE_BITRIX_ID
  | ADD_EMPLOYEE_NAME
  | END
deriving DecidableEq

/-- The transient `context.user_data` fields of the onboarding flow;
`user_data.clear()` resets all of them. -/
structure ConvData where
  department : Option Dept
  new_employee_tg_id : Option Int
  new_employee_bitrix_id : Option Int
deriving DecidableEq

def emptyConvData : ConvData := ⟨none, none, none⟩

/-- Source `add_employee_tg_id`: parse the chat identity; on success store it and
advance, on `ValueError` re-prompt the same state. The employee store is
never touched. -/
def add_employee_tg_id (edb : EmpDb) (cd : ConvData) (text : Str) :
    EmpDb × ConvState × ConvData × List Reply :=
  match pyInt (pyStrip text) with
  | some n =>
      (edb, ConvState.ADD_EMPLOYEE_BITRIX_ID,
       { cd with new_employee_tg_id := some n }, [Reply.askBitrixId])
  | none => (edb, ConvState.ADD_EMPLOYEE_TG_ID, cd, [Reply.retryTgId])

/-- Source `add_employee_bitrix_id`: same shape for the external (Bitrix) identity. -/
def add_employee_bitrix_id (edb : EmpDb) (cd : ConvData) (text : Str) :
    EmpDb × ConvState × ConvData × List Reply :=
  match pyInt (pyStrip text) with
  | some n =>
      (edb, ConvState.ADD_EMPLOYEE_NAME,
       { cd with new_employee_bitrix_id := some n }, [Reply.askName])
  | none => (edb, ConvState.ADD_EMPLOYEE_BITRIX_ID, cd, [Reply.retryBitrixId])

/-- Source `cancel_conversation`: registered as the fallback of every state;
replies, clears all transient fields and ends the flow with no store
mutation. -/
def cancel_conversation (edb : EmpDb) (cd : ConvData) :
    EmpDb × ConvState × ConvData × List Reply :=
  (edb, ConvState.END, emptyConvData, [Reply.cancelled])

/-- Claim C9: non-numeric input in the chat-identity or external-identity
collection state re-prompts the same state with no store mutation and no
change to the collected fields; the cancel command, available from any
state, ends the flow with no store mutation and clears all transient
fields. -/
theorem C9_onboarding_reprompt_and_cancel (edb : EmpDb) (cd : ConvData) (text : Str)
    (hbad : pyInt (pyStrip text) = none) :
    (add_employee_tg_id edb cd text
      = (edb, ConvState.ADD_EMPLOYEE_TG_ID, cd, [Reply.retryTgId])) ∧
    (add_employee_bitrix_id edb cd text
      = (edb, ConvState.ADD_EMPLOYEE_BITRIX_ID, cd, [Reply.retryBitrixId])) ∧
    (∀ cd' : ConvData, cancel_conversation edb cd'
      = (edb, ConvState.END, emptyConvData, [Reply.cancelled])) := by
  refine ⟨?_, ?_, fun cd' => rfl⟩
  · unfold add_employee_tg_id
    rw [hbad]
  · unfold add_employee_bitrix_id
    rw [hbad]

/-- Witness for C9 at the non-numeric input `"abc"`. -/
theorem C9_witness :
    add_employee_tg_id (fun _ => []) emptyConvData ['a', 'b', 'c']
      = (fun _ => [], ConvState.ADD_EMPLOYEE_TG_ID, emptyConvData, [Reply.retryTgId]) ∧
    cancel_conversation (fun _ => []) emptyConvData
      = (fun _ => [], ConvState.END, emptyConvData, [Reply.cancelled]) :=
  ⟨(C9_onboarding_reprompt_and_cancel (fun _ => []) emptyConvData ['a', 'b', 'c']
      (by decide)).1,
   (C9_onboarding_reprompt_and_cancel (fun _ => []) emptyConvData [] (by decide)).2.2
     emptyConvData⟩

-- ==========================================
-- Per-client history summary
-- (src/main.py: get_records_by_phone, handle_info_command aggregation)
-- ==========================================

/-- One row returned by `get_records_by_phone`: the record fields with the
LEFT-JOINed employee and category names, either of which may be null. -/
structure InfoRow where
  timestamp : Int
  employee_name : Option Str
  category_name : Option Str
  category_code : Str
  phone : Str
  comment : Str
deriving DecidableEq

/-- Source `get_records_by_phone`: the department's records with the given phone
inside the trailing `days` window, LEFT JOINed against the employee and
category tables (a dangling reference yields a null name). The descending
timestamp ordering of the SQL query is abstracted away; none of the counted
aggregates depend on it. -/
def get_records_by_phone (rdb : RecDb) (edb : EmpDb) (cdb : CatDb) (phone : Str)
    (days : Int) (dept : Dept) (now : Int) : List InfoRow :=
  ((rdb dept).filter
      (fun r => r.phone == phone && decide (now - days * 86400 < r.created_at))).map
    (fun r =>
      ⟨r.created_at,
       (get_employee_by_telegram_id edb r.emp dept).map (fun e => e.name),
       ((cdb dept).find? (fun c => c.code == r.cat)).map (fun c => c.name),
       r.cat, r.phone, r.comment⟩)

/-- Python truthiness of a nullable string: `None` and `""` are falsy. -/
def optStrTruthy : Option Str → Bool
  | none => false
  | some s => !s.isEmpty

/-- The key multiset of
`Counter(r['employee_name'] for r in records if r['employee_name'])`. -/
def infoEmpKeys (rows : List InfoRow) : List Str :=
  (rows.filter (fun r => optStrTruthy r.employee_name)).map
    (fun r => r.employee_name.getD [])

/-- The key multiset of `Counter((r['category_code'], r['category_name'])
for r in records if r['category_code'])`. -/
def infoCatKeys (rows : List InfoRow) : List (Str × Option Str) :=
  (rows.filter (fun r => !r.category_code.isEmpty)).map
    (fun r => (r.category_code, r.category_name))

/-- The reported total, the length of the fetched record list. -/
def infoTotal (rows : List InfoRow) : Nat := rows.length

/-- Counterexample to C6 as stated: a fetched record whose category
reference does not resolve (null joined name) is **not** excluded from the
by-category breakdown — the source filters on the record's own
`category_code`, which is always present, so the row is counted under
`(code, null)`. -/
theorem C6_counterexample :
    (infoCatKeys [⟨0, some ['A'], none, ['C', 'L', '1'], ['+'], []⟩]).count
      (['C', 'L', '1'], none) ≠ 0 := by
  decide

lemma empRowPred (r : InfoRow) (name : Str) :
    ((r.employee_name.getD [] == name) && optStrTruthy r.employee_name)
      = decide (r.employee_name = some name ∧ name ≠ []) := by
  cases he : r.employee_name with
  | none => simp [optStrTruthy]
  | some s =>
      simp only [optStrTruthy, Option.getD_some, Option.some.injEq]
      by_cases hs : s = []
      · subst hs
        by_cases hn : name = []
        · subst hn; simp
        · simp [hn, fun h : [] = name => hn h.symm]
      · rw [isEmpty_false_of_ne_nil hs]
        by_cases hn : s = name
        · subst hn
          simp [hs]
        · simp [hn]

lemma catRowPred (r : InfoRow) (code : Str) (cname : Option Str) :
    (((r.category_code, r.category_name) == (code, cname)) && !r.category_code.isEmpty)
      = decide (r.category_code = code ∧ r.category_name = cname ∧ code ≠ []) := by
  by_cases h1 : r.category_code = code
  · by_cases h2 : r.category_name = cname
    · by_cases h3 : code = []
      · subst h3
        simp [h1, h2]
      · have hne : r.category_code ≠ [] := by rw [h1]; exact h3
        simp [h1, h2, h3, isEmpty_false_of_ne_nil hne]
    · simp [h2]
  · simp [h1]

/-- Claim C6 amended: every fetched record is counted in the total (split
below into the rows that do and do not enter the by-employee breakdown); a
record contributes to the by-employee breakdown exactly when its employee
reference resolves to a non-empty name, so a deleted employee's records are
excluded there; a record contributes to the by-category breakdown exactly
when its stored category code is non-empty, regardless of whether the
category reference resolves — a record with a deleted category is counted
under `(code, null)` rather than excluded. -/
theorem C6_summary_grouping (rows : List InfoRow) (name : Str) (code : Str)
    (cname : Option Str) :
    ((infoEmpKeys rows).count name
      = rows.countP (fun r => decide (r.employee_name = some name ∧ name ≠ []))) ∧
    ((infoCatKeys rows).count (code, cname)
      = rows.countP (fun r =>
          decide (r.category_code = code ∧ r.category_name = cname ∧ code ≠ []))) ∧
    (infoTotal rows = rows.countP (fun r => optStrTruthy r.employee_name)
        + rows.countP (fun r => !optStrTruthy r.employee_name)) := by
  refine ⟨?_, ?_, ?_⟩
  · rw [infoEmpKeys, List.count_eq_countP, List.countP_map, List.countP_filter]
    apply List.countP_congr
    intro r _
    simp only [Function.comp_apply]
    rw [empRowPred r name]
  · rw [infoCatKeys, List.count_eq_countP, List.countP_map, List.countP_filter]
    apply List.countP_congr
    intro r _
    simp only [Function.comp_apply]
    rw [catRowPred r code cname]
  · rw [infoTotal, List.length_eq_countP_add_countP (fun r => optStrTruthy r.employee_name)]
    congr 1
    apply List.countP_congr
    intro r _
    cases h : optStrTruthy r.employee_name <;> simp [h]
